import Mathlib

/-!
Verification of the Work Time Tracker calendar and aggregation engine.

This file gives a shallow embedding of the holiday-management routes
(src/routes/holidays.js, shipped here as src/unnamed/part_000) and of the
monthly statistics computed on the home page (src/index.js), and proves the
specified properties about them.

Modelling conventions:
* A calendar day is its day number (an integer, days since 1970-01-01).
  The application canonicalizes every date to an ISO YYYY-MM-DD string via
  formatDate before any comparison or set membership test; that canonical
  string is in order-preserving bijection with the day number, so day
  numbers model canonical dates faithfully.
* JavaScript Date day-of-week (getDay, 0 = Sunday .. 6 = Saturday) is
  (dayNumber + 4) mod 7, since 1970-01-01 was a Thursday.
* JavaScript numbers holding hour totals are modelled as rationals.
* JavaScript objects used as maps (string key to value, later assignments
  overwriting earlier ones) are modelled as association lists where lookup
  takes the last matching entry.
-/

namespace Wtt

/-- Day number (days since 1970-01-01) of the civil date y-m-d, by the
standard Gregorian calendar algorithm.  This embeds the JavaScript Date
value that the application builds from an ISO date string. -/
def daysFromCivil (y m d : Nat) : Int :=
  let yAdj : Nat := if m ≤ 2 then y - 1 else y
  let era : Nat := yAdj / 400
  let yoe : Nat := yAdj % 400
  let mp : Nat := (m + 9) % 12
  let doy : Nat := (153 * mp + 2) / 5 + d - 1
  let doe : Nat := yoe * 365 + yoe / 4 - yoe / 100 + doy
  (era * 146097 + doe : Int) - 719468

/-- JavaScript Date.prototype.getDay: 0 = Sunday, ..., 6 = Saturday. -/
def dayOfWeek (t : Int) : Int := (t + 4) % 7

/-- Gregorian leap-year test (behaviour of the JavaScript Date calendar). -/
def isLeapYear (y : Nat) : Bool :=
  y % 4 == 0 && (y % 100 != 0 || y % 400 == 0)

/-- Number of days in month m of year y (JavaScript Date calendar). -/
def daysInMonthCount (y m : Nat) : Nat :=
  if m = 2 then (if isLeapYear y then 29 else 28)
  else if m = 4 ∨ m = 6 ∨ m = 9 ∨ m = 11 then 30
  else 31

/-- The list of the days of month m of year y, in calendar order.  This is
the daysInMonth array built inline by the by-person route (part_000 lines
458-463): it starts at the first of the month and pushes formatted days
while the month is unchanged. -/
def daysInMonth (y m : Nat) : List Int :=
  (List.range (daysInMonthCount y m)).map (fun i => daysFromCivil y m (i + 1))

/-- Modelled from the spec: getWeekdaysInMonth of utils/dateUtils is not in
src/; per spec section 4.1, weekdayCountInMonth(year, month) is the count of
days in the month whose day-of-week is not a weekend day (Sunday = 0,
Saturday = 6). -/
def getWeekdaysInMonth (y m : Nat) : Nat :=
  (daysInMonth y m).countP (fun t => !(dayOfWeek t == 0 || dayOfWeek t == 6))

/-- Sanity: the day-number embedding puts 1970-01-01 at 0 (a Thursday). -/
theorem daysFromCivil_epoch : daysFromCivil 1970 1 1 = 0 := by decide

theorem dayOfWeek_epoch : dayOfWeek (daysFromCivil 1970 1 1) = 4 := by decide

/-!  The business-day generator, generateDateRange (part_000 lines 25-48).
It iterates every calendar day from startDate to endDate inclusive and keeps
the days that are neither weekend days nor members of the public-holiday
set.  The JavaScript Set of formatted holiday dates is modelled as the list
of holiday day numbers, membership replacing Set.has. -/
def generateDateRange (startDate endDate : Int) (publicHolidayDates : List Int) :
    List Int :=
  if _h : startDate ≤ endDate then
    (if dayOfWeek startDate ≠ 0 ∧ dayOfWeek startDate ≠ 6 ∧
        startDate ∉ publicHolidayDates
     then [startDate] else []) ++
      generateDateRange (startDate + 1) endDate publicHolidayDates
  else []
termination_by (endDate + 1 - startDate).toNat
decreasing_by omega

theorem generateDateRange_le {s e : Int} (phs : List Int) (h : s ≤ e) :
    generateDateRange s e phs =
      (if dayOfWeek s ≠ 0 ∧ dayOfWeek s ≠ 6 ∧ s ∉ phs
       then [s] else []) ++ generateDateRange (s + 1) e phs := by
  rw [generateDateRange]
  simp [h]

theorem generateDateRange_gt {s e : Int} (phs : List Int) (h : ¬ s ≤ e) :
    generateDateRange s e phs = [] := by
  rw [generateDateRange]
  simp [h]

theorem mem_generateDateRange (s e d : Int) (phs : List Int) :
    d ∈ generateDateRange s e phs ↔
      s ≤ d ∧ d ≤ e ∧ dayOfWeek d ≠ 0 ∧ dayOfWeek d ≠ 6 ∧ d ∉ phs := by
  induction s, e, phs using generateDateRange.induct with
  | case1 s e phs hle ih =>
    rw [generateDateRange_le phs hle]
    by_cases hd : d = s
    · subst hd
      by_cases hc : dayOfWeek d ≠ 0 ∧ dayOfWeek d ≠ 6 ∧ d ∉ phs
      · simp [hc]
        omega
      · simp only [if_neg hc, List.nil_append, ih]
        constructor
        · intro h
          omega
        · rintro ⟨h1, h2, h3, h4, h5⟩
          exact absurd ⟨h3, h4, h5⟩ hc
    · rw [List.mem_append, ih]
      constructor
      · rintro (h | h)
        · split at h
          · simp at h
            exact absurd h hd
          · simp at h
        · obtain ⟨h1, h2, h3, h4, h5⟩ := h
          exact ⟨by omega, h2, h3, h4, h5⟩
      · rintro ⟨h1, h2, h3, h4, h5⟩
        right
        refine ⟨by omega, h2, h3, h4, h5⟩
  | case2 s e phs hle =>
    rw [generateDateRange_gt phs hle]
    simp
    omega

theorem pairwise_generateDateRange (s e : Int) (phs : List Int) :
    (generateDateRange s e phs).Pairwise (· < ·) := by
  induction s, e, phs using generateDateRange.induct with
  | case1 s e phs hle ih =>
    rw [generateDateRange_le phs hle]
    rw [List.pairwise_append]
    refine ⟨?_, ih, ?_⟩
    · split <;> simp
    · intro a ha b hb
      have hb' := (mem_generateDateRange (s + 1) e b phs).1 hb
      split at ha <;> simp at ha
      omega
  | case2 s e phs hle =>
    rw [generateDateRange_gt phs hle]
    simp

theorem nodup_generateDateRange (s e : Int) (phs : List Int) :
    (generateDateRange s e phs).Nodup :=
  (pairwise_generateDateRange s e phs).imp ne_of_lt

/-!  The add-holiday request (router.post in part_000, lines 113-214).

A submitted date field is either absent (a falsy form field), a non-empty
string that does not parse as a date (new Date gives an Invalid Date, whose
getDay() is NaN, equal to neither 0 nor 6, and which compares false against
every date), or a valid date.  utils/dateUtils formatDate is not in src/;
per spec sections 4.1 and 7 it canonicalizes a date-like input and raises a
computation error on a malformed one, which the route's catch turns into
the generic failure redirect. -/
inductive DateInput where
  | missing : DateInput
  | unparseable : DateInput
  | valid : Int → DateInput
deriving DecidableEq

/-- The outcome the add-holiday route redirects with. -/
inductive AddOutcome where
  | invalidDate : AddOutcome
  | weekendNotAllowed : AddOutcome
  | publicHolidayNotAllowed : AddOutcome
  | noValidDays : AddOutcome
  | failed : AddOutcome
  | success : List Int → AddOutcome
deriving DecidableEq

/-- The transactional write (part_000 lines 155-171): for each generated
day, insert a (user, date) holiday row only when none exists yet.  The
holidays table is modelled as the list of its (user_id, holiday_date) rows
in insertion order. -/
def insertHolidays (db : List (Nat × Int)) (userId : Nat) (dates : List Int) :
    List (Nat × Int) :=
  dates.foldl
    (fun acc holiday_date =>
      if (userId, holiday_date) ∈ acc then acc else acc ++ [(userId, holiday_date)])
    db

/-- The add-holiday route (part_000 lines 113-214), from the validation of
start_date through the transactional write; publicHolidays stands for the
rows PublicHoliday.findByDateRange returned for the interval.  Returns the
redirect outcome and the holidays table after the request. -/
def addHoliday (userId : Nat) (start_date end_date : DateInput)
    (publicHolidays : List Int) (db : List (Nat × Int)) :
    AddOutcome × List (Nat × Int) :=
  match start_date with
  | .missing => (.invalidDate, db)
  | .unparseable =>
      -- getDay() of the invalid start date is NaN, so the weekend check
      -- passes; formatDate(start_date) then raises (spec section 7), and
      -- the route's catch answers with the generic failure, db untouched.
      (.failed, db)
  | .valid s =>
      if dayOfWeek s = 0 ∨ dayOfWeek s = 6 then (.weekendNotAllowed, db)
      else
        -- actualEndDate = end_date || start_date
        let actualEndDate : DateInput :=
          match end_date with
          | .missing => .valid s
          | other => other
        if s ∈ publicHolidays then (.publicHolidayNotAllowed, db)
        else
          let holidayDates : List Int :=
            match actualEndDate with
            | .valid e => generateDateRange s e publicHolidays
            | _ => []   -- an invalid end date compares false, the loop never runs
          if holidayDates.isEmpty then (.noValidDays, db)
          else (.success holidayDates, insertHolidays db userId holidayDates)

/-!  Monthly statistics (src/index.js lines 286-319). -/

/-- JavaScript Math.round: round half toward positive infinity. -/
def jsRound (q : ℚ) : ℤ := ⌊q + 1/2⌋

/-- Math.round(x * 100) / 100, the two-decimal rounding applied at the
point of output. -/
def round2 (q : ℚ) : ℚ := (jsRound (q * 100) : ℚ) / 100

/-- The monthStats object rendered on the home page. -/
structure MonthStats where
  totalWorkHours : ℚ
  holidayCount : Nat
  totalHolidayHours : ℚ
  publicHolidaysCount : Nat
  publicHolidayHours : ℚ
  totalCombinedHours : ℚ
  requiredMonthlyHours : ℚ
  remainingHours : ℚ
deriving DecidableEq

/-- The stats computation of src/index.js lines 286-319: totalWorkHours and
holidayCount come from the worked-hours and holidays tables, publicHolidays
is the list of the month's public-holiday dates.  getWeekdaysInMonth is the
spec-modelled weekday count (utils/dateUtils is not in src/). -/
def monthStats (year month : Nat) (totalWorkHours : ℚ) (holidayCount : Nat)
    (publicHolidays : List Int) : MonthStats :=
  let publicHolidaysOnWorkdays :=
    publicHolidays.filter (fun d => !(dayOfWeek d == 0 || dayOfWeek d == 6))
  let hoursPerDay : ℚ := 8
  let workDaysInMonth := getWeekdaysInMonth year month
  let requiredMonthlyHours : ℚ :=
    ((workDaysInMonth : ℚ) - (publicHolidays.length : ℚ)) * hoursPerDay
  let totalHolidayHours : ℚ := (holidayCount : ℚ) * hoursPerDay
  let publicHolidayHours : ℚ := (publicHolidaysOnWorkdays.length : ℚ) * hoursPerDay
  let totalCombinedHours : ℚ := totalWorkHours + totalHolidayHours
  let remainingHours : ℚ := max 0 (requiredMonthlyHours - totalCombinedHours)
  { totalWorkHours := round2 totalWorkHours
    holidayCount := holidayCount
    totalHolidayHours := totalHolidayHours
    publicHolidaysCount := publicHolidaysOnWorkdays.length
    publicHolidayHours := publicHolidayHours
    totalCombinedHours := round2 totalCombinedHours
    requiredMonthlyHours := requiredMonthlyHours
    remainingHours := round2 remainingHours }

/-- A JavaScript number that is a whole multiple of 0.01, the granularity at
which the two-decimal output rounding is the identity. -/
def Centi (q : ℚ) : Prop := ∃ n : ℤ, q = (n : ℚ) / 100

theorem round2_eq_self {q : ℚ} (h : Centi q) : round2 q = q := by
  obtain ⟨n, rfl⟩ := h
  unfold round2 jsRound
  have h100 : ((n : ℚ) / 100) * 100 = (n : ℚ) := by
    field_simp
  rw [h100]
  rw [show ((n : ℚ) + 1/2) = ((1 : ℚ)/2) + (n : ℤ) from by ring]
  rw [Int.floor_add_int]
  norm_num

theorem Centi.add {q r : ℚ} (hq : Centi q) (hr : Centi r) : Centi (q + r) := by
  obtain ⟨n, rfl⟩ := hq
  obtain ⟨m, rfl⟩ := hr
  exact ⟨n + m, by push_cast; ring⟩

theorem Centi.intCast (n : ℤ) : Centi (n : ℚ) :=
  ⟨n * 100, by push_cast; ring⟩

theorem Centi.natCast (n : ℕ) : Centi (n : ℚ) := by
  simpa using Centi.intCast (n : ℤ)

theorem Centi.sub {q r : ℚ} (hq : Centi q) (hr : Centi r) : Centi (q - r) := by
  obtain ⟨n, rfl⟩ := hq
  obtain ⟨m, rfl⟩ := hr
  exact ⟨n - m, by push_cast; ring⟩

theorem Centi.max {q r : ℚ} (hq : Centi q) (hr : Centi r) : Centi (max q r) := by
  rcases le_total q r with h | h
  · rwa [max_eq_right h]
  · rwa [max_eq_left h]

theorem Centi.mul_nat (n : ℕ) (k : ℤ) : Centi ((n : ℚ) * (k : ℚ)) := by
  exact ⟨n * k * 100, by push_cast; ring⟩

/-!  The by-person employees view (part_000, lines 409-588). -/

/-- A row of the users directory.  A missing group assignment is group_id
none; a missing display name is the empty string (both are falsy in the
route's JavaScript). -/
structure UserRec where
  id : Nat
  name : String
  email : String
  group_id : Option Nat
deriving DecidableEq

/-- A row of the groups directory. -/
structure GroupRec where
  id : Nat
  name : String
deriving DecidableEq

/-- A row of the holidays table, as fetched for the month's range. -/
structure HolidayRec where
  user_id : Nat
  holiday_date : Int
deriving DecidableEq

/-- A row of the work-locations table. -/
structure WorkLocationRec where
  user_id : Nat
  work_date : Int
  is_onsite : Bool
deriving DecidableEq

/-- A row of the public-holidays table: a date and its display name. -/
structure PublicHolidayRec where
  holiday_date : Int
  name : String
deriving DecidableEq

/-- Everything the by-person route fetched before aggregating. -/
structure ByPersonInput where
  year : Nat
  month : Nat
  allUsers : List UserRec
  allGroups : List GroupRec
  publicHolidaysRaw : List PublicHolidayRec
  allHolidays : List HolidayRec
  allWorkLocations : List WorkLocationRec

/-- holidaysByUser lookup followed by date formatting (lines 436-442, 488):
the formatted holiday dates of one user, in fetch order. -/
def holidayDates (inp : ByPersonInput) (uid : Nat) : List Int :=
  (inp.allHolidays.filter (fun h => h.user_id == uid)).map (·.holiday_date)

/-- workLocationsByUser for one user (lines 444-451): a JavaScript object
keyed by formatted date; modelled as the association list of that user's
(date, is_onsite) pairs in fetch order, later entries overwriting earlier
ones at lookup. -/
def userWorkLocations (inp : ByPersonInput) (uid : Nat) : List (Int × Bool) :=
  (inp.allWorkLocations.filter (fun l => l.user_id == uid)).map
    (fun l => (l.work_date, l.is_onsite))

/-- JavaScript object lookup on an association list: the last assignment to
a key wins; none when the key was never assigned. -/
def lookupLocation (m : List (Int × Bool)) (d : Int) : Option Bool :=
  ((m.filter (fun p => p.1 == d)).map (·.2)).getLast?

/-- publicHolidaysMap (lines 453-456): maps a formatted date to the name of
the public holiday on it (the last one fetched, assignments overwriting). -/
def publicHolidaysMap (phs : List PublicHolidayRec) (d : Int) : Option String :=
  ((phs.filter (fun p => p.holiday_date == d)).map (·.name)).getLast?

/-- The remoteDates computation for one user (lines 493-508): the days of
the month on which the user explicitly declared remote (is_onsite === false)
and which are not weekends, carry no truthy public-holiday map entry (the
route tests the truthiness of the holiday's name), and are not among the
user's own holiday dates. -/
def remoteDates (inp : ByPersonInput) (uid : Nat) : List Int :=
  (daysInMonth inp.year inp.month).filter (fun dateStr =>
    let isWeekend := dayOfWeek dateStr == 0 || dayOfWeek dateStr == 6
    let isPublicHoliday := ((publicHolidaysMap inp.publicHolidaysRaw dateStr).getD "") != ""
    let isHoliday := (holidayDates inp uid).contains dateStr
    let isRemote := lookupLocation (userWorkLocations inp uid) dateStr == some false
    isRemote && !isWeekend && !isPublicHoliday && !isHoliday)

/-- The inclusion test of line 511: holidayDates.length > 0 ||
remoteDates.length > 0. -/
def includedUser (inp : ByPersonInput) (uid : Nat) : Bool :=
  decide (0 < (holidayDates inp uid).length) || decide (0 < (remoteDates inp uid).length)

/-- The employeeData object pushed for an included user (lines 512-521). -/
structure EmployeeData where
  id : Nat
  name : String
  email : String
  holidays : List Int
  holidayCount : Nat
  workLocations : List (Int × Bool)
  remoteDates : List Int
  remoteDaysCount : Nat
deriving DecidableEq

def employeeData (inp : ByPersonInput) (user : UserRec) : EmployeeData :=
  { id := user.id
    name := if user.name = "" then (user.email.splitOn "@").headD "" else user.name
    email := user.email
    holidays := holidayDates inp user.id
    holidayCount := (holidayDates inp user.id).length
    workLocations := userWorkLocations inp user.id
    remoteDates := remoteDates inp user.id
    remoteDaysCount := (remoteDates inp user.id).length }

/-- user.group_id || 0 (line 524): the sentinel key 0 for users without a
group. -/
def effectiveGroupId (user : UserRec) : Nat := user.group_id.getD 0

/-- One entry of the grouped output. -/
structure GroupAgg where
  id : Nat
  name : String
  employees : List EmployeeData
deriving DecidableEq

/-- The key set of the groupMap object (lines 466-482): one key per group
id, plus the sentinel key 0 assigned last (overwriting a group with id 0 if
one exists).  A JavaScript object holds each key once; the enumeration
order of its integer-like keys does not affect any property proved here
because the values are re-sorted below, so the distinct keys are modelled
with dedup. -/
def groupMapKeys (allGroups : List GroupRec) : List Nat :=
  (allGroups.map (fun (g : GroupRec) => g.id) ++ [0]).dedup

/-- The display name stored under key k: the last group row with that id,
except that key 0 holds the sentinel "Bez grupy" bucket. -/
def groupMapName (allGroups : List GroupRec) (k : Nat) : String :=
  if k = 0 then "Bez grupy"
  else ((((allGroups.filter (fun g => g.id == k)).map (·.name)).getLast?).getD "")

/-- The groupMap entry under key k after the user loop (lines 485-527):
every included user whose effective group id is k, in directory order. -/
def groupValue (inp : ByPersonInput) (k : Nat) : GroupAgg :=
  { id := k
    name := groupMapName inp.allGroups k
    employees :=
      (inp.allUsers.filter
        (fun u => includedUser inp u.id && (effectiveGroupId u == k))).map
        (employeeData inp) }

/-- Object.values(groupMap). -/
def groupMapValues (inp : ByPersonInput) : List GroupAgg :=
  (groupMapKeys inp.allGroups).map (groupValue inp)

/-- The sort comparator of lines 532-538, as the test comparator(a, b) <= 0
(a need not come after b): the sentinel bucket sorts after everything,
otherwise names compare. -/
def groupLe (a b : GroupAgg) : Bool :=
  if a.id = 0 then false else if b.id = 0 then true else a.name ≤ b.name

/-- Insertion step of a comparator-consistent sort. -/
def insertLe {α : Type} (le : α → α → Bool) (x : α) : List α → List α
  | [] => [x]
  | y :: ys => if le x y then x :: y :: ys else y :: insertLe le x ys

/-- A comparator-consistent sort, standing for Array.prototype.sort (the
ECMAScript contract: the output is a permutation of the input that is
sorted with respect to the comparator). -/
def sortByLe {α : Type} (le : α → α → Bool) : List α → List α
  | [] => []
  | x :: xs => insertLe le x (sortByLe le xs)

/-- Lines 530-538: drop the groups without employees and sort the rest. -/
def groupedEmployees (inp : ByPersonInput) : List GroupAgg :=
  sortByLe groupLe ((groupMapValues inp).filter (fun g => !g.employees.isEmpty))

/-- The summary counter of employees with a holiday (lines 541-552). -/
def totalEmployeesWithHolidays (inp : ByPersonInput) : Nat :=
  (((groupedEmployees inp).map (·.employees)).flatten).countP
    (fun e => decide (0 < e.holidayCount))

/-- The summary counter of employees with remote work (lines 541-552). -/
def totalEmployeesWithRemoteWork (inp : ByPersonInput) : Nat :=
  (((groupedEmployees inp).map (·.employees)).flatten).countP
    (fun e => decide (0 < e.remoteDaysCount))

/-!  The clamping of caller-supplied month and year in the grouping views
(part_000 lines 315-321 and 411-417). -/

/-- parseInt(req.query.month) || currentMonth: an unparseable query value
(parseInt gives NaN) and the value 0 are both falsy and fall back to the
current month; any other parsed integer is kept. -/
def parsedOrDefault (q : Option Int) (fallback : Int) : Int :=
  match q with
  | none => fallback
  | some v => if v = 0 then fallback else v

/-- month = Math.max(1, Math.min(12, queryMonth)). -/
def clampMonth (q : Option Int) (currentMonth : Int) : Int :=
  max 1 (min 12 (parsedOrDefault q currentMonth))

/-- year = Math.max(2020, Math.min(2030, queryYear)). -/
def clampYear (q : Option Int) (currentYear : Int) : Int :=
  max 2020 (min 2030 (parsedOrDefault q currentYear))

/-!  Lemmas about the comparator-consistent sort. -/

theorem perm_insertLe {α : Type} (le : α → α → Bool) (x : α) (l : List α) :
    (insertLe le x l).Perm (x :: l) := by
  induction l with
  | nil => rfl
  | cons y ys ih =>
    unfold insertLe
    split
    · rfl
    · exact (List.Perm.cons y ih).trans (List.Perm.swap x y ys)

theorem perm_sortByLe {α : Type} (le : α → α → Bool) (l : List α) :
    (sortByLe le l).Perm l := by
  induction l with
  | nil => rfl
  | cons x xs ih =>
    exact (perm_insertLe le x (sortByLe le xs)).trans (List.Perm.cons x ih)

theorem mem_sortByLe {α : Type} (le : α → α → Bool) (l : List α) (a : α) :
    a ∈ sortByLe le l ↔ a ∈ l :=
  (perm_sortByLe le l).mem_iff

theorem pairwise_insertLe {α : Type} {le : α → α → Bool}
    (htrans : ∀ a b c, le a b = true → le b c = true → le a c = true)
    {x : α} {l : List α}
    (htot : ∀ y ∈ l, le x y = true ∨ le y x = true)
    (hl : l.Pairwise (fun a b => le a b = true)) :
    (insertLe le x l).Pairwise (fun a b => le a b = true) := by
  induction l with
  | nil => simp [insertLe]
  | cons y ys ih =>
    rw [List.pairwise_cons] at hl
    unfold insertLe
    split
    · rename_i hxy
      refine List.Pairwise.cons ?_ (List.Pairwise.cons hl.1 hl.2)
      intro a ha
      rcases List.mem_cons.1 ha with rfl | ha
      · exact hxy
      · exact htrans x y a hxy (hl.1 a ha)
    · rename_i hxy
      have hyx : le y x = true := by
        rcases htot y (List.mem_cons_self y ys) with h | h
        · exact absurd h hxy
        · exact h
      refine List.Pairwise.cons ?_
        (ih (fun z hz => htot z (List.mem_cons_of_mem y hz)) hl.2)
      intro a ha
      have ha' : a ∈ x :: ys := (perm_insertLe le x ys).mem_iff.1 ha
      rcases List.mem_cons.1 ha' with rfl | h
      · exact hyx
      · exact hl.1 a h

theorem pairwise_sortByLe {α : Type} {le : α → α → Bool}
    (htrans : ∀ a b c, le a b = true → le b c = true → le a c = true)
    {l : List α}
    (htot : l.Pairwise (fun a b => le a b = true ∨ le b a = true)) :
    (sortByLe le l).Pairwise (fun a b => le a b = true) := by
  induction l with
  | nil => simp [sortByLe]
  | cons x xs ih =>
    rw [List.pairwise_cons] at htot
    refine pairwise_insertLe htrans ?_ (ih htot.2)
    intro y hy
    exact htot.1 y ((mem_sortByLe le xs y).1 hy)

/-!  Lemmas about the grouped output. -/

theorem groupLe_trans :
    ∀ a b c : GroupAgg, groupLe a b = true → groupLe b c = true →
      groupLe a c = true := by
  intro a b c hab hbc
  unfold groupLe at hab hbc ⊢
  by_cases ha : a.id = 0
  · simp [ha] at hab
  · by_cases hb : b.id = 0
    · simp [hb] at hbc
    · by_cases hc : c.id = 0
      · simp [ha, hc]
      · simp [ha, hb] at hab
        simp [hb, hc] at hbc
        simp [ha, hc]
        exact le_trans hab hbc

theorem pairwise_ne_id_groupMapValues (inp : ByPersonInput) :
    (groupMapValues inp).Pairwise (fun a b => a.id ≠ b.id) := by
  have h : (groupMapKeys inp.allGroups).Nodup := List.nodup_dedup _
  exact List.Pairwise.map (groupValue inp) (fun a b hab => hab) h

theorem pairwise_groupedEmployees (inp : ByPersonInput) :
    (groupedEmployees inp).Pairwise (fun a b => groupLe a b = true) := by
  apply pairwise_sortByLe groupLe_trans
  have hne :
      ((groupMapValues inp).filter (fun g => !g.employees.isEmpty)).Pairwise
        (fun a b => a.id ≠ b.id) :=
    (pairwise_ne_id_groupMapValues inp).filter _
  refine hne.imp ?_
  intro a b hab
  by_cases ha : a.id = 0
  · right
    have hb : b.id ≠ 0 := fun h => hab (by rw [ha, h])
    simp [groupLe, ha, hb]
  · by_cases hb : b.id = 0
    · left
      simp [groupLe, ha, hb]
    · rcases le_total a.name b.name with h | h
      · left
        simp [groupLe, ha, hb, h]
      · right
        simp [groupLe, ha, hb, h]

theorem mem_groupedEmployees (inp : ByPersonInput) (g : GroupAgg) :
    g ∈ groupedEmployees inp ↔ g ∈ groupMapValues inp ∧ g.employees ≠ [] := by
  unfold groupedEmployees
  rw [mem_sortByLe, List.mem_filter]
  simp

theorem sum_map_add_nat {α : Type} (f g : α → Nat) (l : List α) :
    (l.map (fun x => f x + g x)).sum = (l.map f).sum + (l.map g).sum := by
  induction l with
  | nil => rfl
  | cons x xs ih =>
    simp only [List.map_cons, List.sum_cons, ih]
    omega

theorem sum_map_ite_zero (keys : List Nat) (k0 : Nat) (h : k0 ∉ keys) :
    (keys.map (fun k => if k0 = k then 1 else 0)).sum = 0 := by
  induction keys with
  | nil => rfl
  | cons k ks ih =>
    have hne : k0 ≠ k := fun he => h (he ▸ List.mem_cons_self k ks)
    have hks : k0 ∉ ks := fun hm => h (List.mem_cons_of_mem k hm)
    simp [hne, ih hks]

theorem sum_map_ite_one (keys : List Nat) (k0 : Nat) (hnd : keys.Nodup)
    (hmem : k0 ∈ keys) :
    (keys.map (fun k => if k0 = k then 1 else 0)).sum = 1 := by
  induction keys with
  | nil => simp at hmem
  | cons k ks ih =>
    rw [List.nodup_cons] at hnd
    rcases List.mem_cons.1 hmem with rfl | hm
    · simp [sum_map_ite_zero ks k0 hnd.1]
    · have hne : k0 ≠ k := fun he => hnd.1 (he ▸ hm)
      simp [hne, ih hnd.2 hm]

theorem countP_partition (users : List UserRec) (keys : List Nat)
    (f : UserRec → Nat) (Q : UserRec → Bool)
    (hnd : keys.Nodup) (hcov : ∀ u ∈ users, Q u = true → f u ∈ keys) :
    (keys.map (fun k => users.countP (fun u => Q u && (f u == k)))).sum
      = users.countP Q := by
  induction users with
  | nil => simp
  | cons u us ih =>
    have hcov' : ∀ v ∈ us, Q v = true → f v ∈ keys :=
      fun v hv hq => hcov v (List.mem_cons_of_mem u hv) hq
    rw [List.countP_cons]
    have hmap : keys.map (fun k => (u :: us).countP (fun v => Q v && (f v == k)))
        = keys.map (fun k => us.countP (fun v => Q v && (f v == k))
            + (if (Q u && (f u == k)) = true then 1 else 0)) := by
      apply List.map_congr_left
      intro k _
      rw [List.countP_cons]
    rw [hmap, sum_map_add_nat, ih hcov']
    congr 1
    by_cases hq : Q u = true
    · have hfm : f u ∈ keys := hcov u (List.mem_cons_self u us) hq
      have hre : keys.map (fun k => if (Q u && (f u == k)) = true then 1 else 0)
          = keys.map (fun k => if f u = k then 1 else 0) := by
        apply List.map_congr_left
        intro k _
        simp [hq, beq_iff_eq]
      rw [hre, sum_map_ite_one keys (f u) hnd hfm]
      simp [hq]
    · have hre : keys.map (fun k => if (Q u && (f u == k)) = true then 1 else 0)
          = keys.map (fun _ => 0) := by
        apply List.map_congr_left
        intro k _
        simp [hq]
      rw [hre]
      simp [hq]

theorem sum_map_filter_empty (L : List GroupAgg) (h : GroupAgg → Nat)
    (hzero : ∀ g, g.employees = [] → h g = 0) :
    ((L.filter (fun g => !g.employees.isEmpty)).map h).sum = (L.map h).sum := by
  induction L with
  | nil => rfl
  | cons g gs ih =>
    rw [List.filter_cons]
    by_cases hg : g.employees = []
    · simp [hg, hzero g hg, ih]
    · simp [hg, ih]

/-- The summary loop of lines 541-552, for an arbitrary per-employee test:
it counts, among the users included in the grouped output, those whose
employeeData satisfies the test — provided every included user's effective
group id is a key of groupMap (in the route a dangling group id would make
the push throw, so this is the users-to-groups referential integrity the
data maintains). -/
theorem countP_groupedEmployees (inp : ByPersonInput) (P : EmployeeData → Bool)
    (href : ∀ u ∈ inp.allUsers, includedUser inp u.id = true →
      effectiveGroupId u ∈ groupMapKeys inp.allGroups) :
    (((groupedEmployees inp).map (fun g => g.employees)).flatten).countP P
      = inp.allUsers.countP
          (fun u => P (employeeData inp u) && includedUser inp u.id) := by
  rw [List.countP_flatten, List.map_map]
  have hperm :
      ((groupedEmployees inp).map (List.countP P ∘ fun g => g.employees)).Perm
        ((((groupMapValues inp).filter (fun g => !g.employees.isEmpty)).map
          (List.countP P ∘ fun g => g.employees))) :=
    (perm_sortByLe groupLe _).map _
  rw [hperm.sum_eq]
  rw [sum_map_filter_empty _ _ (fun g hg => by simp [Function.comp, hg])]
  unfold groupMapValues
  rw [List.map_map]
  have hterm : ∀ k,
      (List.countP P ∘ fun g => g.employees) (groupValue inp k)
        = inp.allUsers.countP
            (fun u => (P (employeeData inp u) && includedUser inp u.id)
              && (effectiveGroupId u == k)) := by
    intro k
    show List.countP P (((inp.allUsers.filter
        (fun u => includedUser inp u.id && (effectiveGroupId u == k))).map
          (employeeData inp))) = _
    rw [List.countP_map, List.countP_filter]
    apply List.countP_congr
    intro u _
    simp [Function.comp, Bool.and_assoc]
  have hmapeq :
      (groupMapKeys inp.allGroups).map
          ((List.countP P ∘ fun g => g.employees) ∘ groupValue inp)
        = (groupMapKeys inp.allGroups).map
            (fun k => inp.allUsers.countP
              (fun u => (P (employeeData inp u) && includedUser inp u.id)
                && (effectiveGroupId u == k))) := by
    apply List.map_congr_left
    intro k _
    exact hterm k
  rw [hmapeq]
  exact countP_partition inp.allUsers (groupMapKeys inp.allGroups)
    effectiveGroupId _ (List.nodup_dedup _)
    (fun u hu hq => href u hu (Bool.and_elim_right hq))

/-- A user of the directory appears in the grouped output exactly when the
route includes them (some holiday date or some qualifying remote date),
assuming distinct user ids and group referential integrity. -/
theorem appears_in_groupedEmployees (inp : ByPersonInput)
    (hids : (inp.allUsers.map (fun u => u.id)).Nodup)
    (href : ∀ u ∈ inp.allUsers, includedUser inp u.id = true →
      effectiveGroupId u ∈ groupMapKeys inp.allGroups)
    (u : UserRec) (hu : u ∈ inp.allUsers) :
    (∃ g ∈ groupedEmployees inp, ∃ e ∈ g.employees, e.id = u.id)
      ↔ includedUser inp u.id = true := by
  constructor
  · rintro ⟨g, hg, e, he, heid⟩
    obtain ⟨hgv, -⟩ := (mem_groupedEmployees inp g).1 hg
    obtain ⟨k, -, rfl⟩ := List.mem_map.1 hgv
    obtain ⟨u', hu', rfl⟩ := List.mem_map.1 he
    obtain ⟨hu'mem, hu'cond⟩ := List.mem_filter.1 hu'
    have hid : u'.id = u.id := heid
    have : u' = u :=
      List.inj_on_of_nodup_map hids hu'mem hu hid
    subst this
    exact Bool.and_elim_left hu'cond
  · intro hinc
    have hkey : effectiveGroupId u ∈ groupMapKeys inp.allGroups := href u hu hinc
    refine ⟨groupValue inp (effectiveGroupId u), ?_, employeeData inp u, ?_, rfl⟩
    · rw [mem_groupedEmployees]
      constructor
      · exact List.mem_map.2 ⟨effectiveGroupId u, hkey, rfl⟩
      · apply List.ne_nil_of_mem
        apply List.mem_map_of_mem (employeeData inp)
        rw [List.mem_filter]
        exact ⟨hu, by simp [hinc]⟩
    · apply List.mem_map_of_mem (employeeData inp)
      rw [List.mem_filter]
      exact ⟨hu, by simp [hinc]⟩

/-- Pointwise description of the remoteDates filter. -/
theorem mem_remoteDates (inp : ByPersonInput) (uid : Nat) (d : Int) :
    d ∈ remoteDates inp uid ↔
      d ∈ daysInMonth inp.year inp.month
      ∧ lookupLocation (userWorkLocations inp uid) d = some false
      ∧ dayOfWeek d ≠ 0 ∧ dayOfWeek d ≠ 6
      ∧ (publicHolidaysMap inp.publicHolidaysRaw d).getD "" = ""
      ∧ d ∉ holidayDates inp uid := by
  unfold remoteDates
  simp [List.mem_filter, not_or]
  tauto

/-!  Lemmas about the transactional holiday write. -/

theorem insertHolidays_nil (db : List (Nat × Int)) (u : Nat) :
    insertHolidays db u [] = db := rfl

theorem insertHolidays_cons (db : List (Nat × Int)) (u : Nat) (d : Int)
    (ds : List Int) :
    insertHolidays db u (d :: ds)
      = insertHolidays (if (u, d) ∈ db then db else db ++ [(u, d)]) u ds := by
  unfold insertHolidays
  rfl

theorem mem_insertHolidays (db : List (Nat × Int)) (u : Nat) (ds : List Int)
    (p : Nat × Int) :
    p ∈ insertHolidays db u ds ↔ p ∈ db ∨ (p.1 = u ∧ p.2 ∈ ds) := by
  obtain ⟨p1, p2⟩ := p
  induction ds generalizing db with
  | nil =>
    simp [insertHolidays_nil]
  | cons d ds ih =>
    rw [insertHolidays_cons, ih]
    by_cases hm : (u, d) ∈ db
    · rw [if_pos hm]
      simp only [List.mem_cons]
      constructor
      · rintro (h | ⟨h1, h2⟩)
        · exact Or.inl h
        · exact Or.inr ⟨h1, Or.inr h2⟩
      · rintro (h | ⟨h1, (h2 | h2)⟩)
        · exact Or.inl h
        · subst h1
          subst h2
          exact Or.inl hm
        · exact Or.inr ⟨h1, h2⟩
    · rw [if_neg hm]
      simp only [List.mem_append, List.mem_singleton, List.mem_cons,
        List.not_mem_nil, or_false, Prod.mk.injEq]
      tauto

theorem insertHolidays_of_all_mem (db : List (Nat × Int)) (u : Nat)
    (ds : List Int) (h : ∀ d ∈ ds, (u, d) ∈ db) :
    insertHolidays db u ds = db := by
  induction ds with
  | nil => rfl
  | cons d ds ih =>
    rw [insertHolidays_cons, if_pos (h d (List.mem_cons_self d ds))]
    exact ih (fun x hx => h x (List.mem_cons_of_mem d hx))

theorem nodup_insertHolidays (db : List (Nat × Int)) (u : Nat) (ds : List Int)
    (h : db.Nodup) : (insertHolidays db u ds).Nodup := by
  induction ds generalizing db with
  | nil => exact h
  | cons d ds ih =>
    rw [insertHolidays_cons]
    by_cases hm : (u, d) ∈ db
    · rw [if_pos hm]
      exact ih db h
    · rw [if_neg hm]
      apply ih
      refine List.Nodup.append h (by simp) ?_
      intro a ha hb
      rw [List.mem_singleton] at hb
      subst hb
      exact hm ha

/-!  Further arithmetic helpers for the stats claims. -/

theorem Centi_nat_mul_eight (n : ℕ) : Centi ((n : ℚ) * 8) :=
  ⟨(n : ℤ) * 800, by push_cast; ring⟩

theorem Centi_sub_mul_eight (a b : ℕ) : Centi (((a : ℚ) - (b : ℚ)) * 8) :=
  ⟨((a : ℤ) - (b : ℤ)) * 800, by push_cast; ring⟩

theorem Centi_zero : Centi (0 : ℚ) := ⟨0, by norm_num⟩

theorem round2_nonneg {q : ℚ} (h : 0 ≤ q) : 0 ≤ round2 q := by
  unfold round2 jsRound
  apply div_nonneg _ (by norm_num)
  have h2 : (0 : ℚ) ≤ q * 100 + 1/2 := by nlinarith
  exact_mod_cast Int.floor_nonneg.2 h2

theorem max_zero_sub_max_zero (a d : ℚ) (h : 0 ≤ d) :
    max 0 (a - d) = max 0 (max 0 a - d) := by
  rcases le_total a 0 with ha | ha
  · rw [max_eq_left ha, max_eq_left (by linarith), max_eq_left (by linarith)]
  · rw [max_eq_right ha]

/-!  The claims. -/

/-- C1: for every interval and public-holiday set, generateDateRange
returns exactly the calendar days from start to end inclusive that are
neither weekend days (Sunday 0, Saturday 6) nor members of the holiday
set, strictly ascending and duplicate-free; an interval all of whose days
are weekend days (in particular one inside a single weekend) yields the
empty list, returned normally. -/
theorem c1_generateDateRange_businessDays (s e : Int) (phs : List Int) :
    (∀ d, d ∈ generateDateRange s e phs ↔
        (s ≤ d ∧ d ≤ e ∧ dayOfWeek d ≠ 0 ∧ dayOfWeek d ≠ 6 ∧ d ∉ phs))
    ∧ (generateDateRange s e phs).Pairwise (· < ·)
    ∧ (generateDateRange s e phs).Nodup
    ∧ ((∀ d, s ≤ d → d ≤ e → (dayOfWeek d = 0 ∨ dayOfWeek d = 6)) →
        generateDateRange s e phs = []) := by
  refine ⟨fun d => mem_generateDateRange s e d phs,
    pairwise_generateDateRange s e phs, nodup_generateDateRange s e phs, ?_⟩
  intro hwk
  rw [List.eq_nil_iff_forall_not_mem]
  intro d hd
  obtain ⟨h1, h2, h3, h4, -⟩ := (mem_generateDateRange s e d phs).1 hd
  rcases hwk d h1 h2 with h | h
  · exact h3 h
  · exact h4 h

/-- C1 witness: the interval Saturday 2024-05-04 to Sunday 2024-05-05 lies
inside a single weekend and produces the empty business-day list. -/
theorem c1_witness_weekend_interval :
    generateDateRange (daysFromCivil 2024 5 4) (daysFromCivil 2024 5 5) []
      = [] := by
  apply (c1_generateDateRange_businessDays (daysFromCivil 2024 5 4)
    (daysFromCivil 2024 5 5) []).2.2.2
  intro d h1 h2
  have e1 : daysFromCivil 2024 5 4 = 19847 := by decide
  have e2 : daysFromCivil 2024 5 5 = 19848 := by decide
  rw [e1] at h1
  rw [e2] at h2
  have hd : d = 19847 ∨ d = 19848 := by omega
  rcases hd with rfl | rfl
  · right
    decide
  · left
    decide

/-- C2: the add-holiday validation applies its rules in fixed precedence
(missing start date, then weekend start, then public-holiday start, then
empty generated list), the first failing rule deciding the outcome; only
the start date is checked by the weekend rule, so a Saturday start date
yields weekendNotAllowed whatever the end date is. -/
theorem c2_addHoliday_precedence (userId : Nat) (db : List (Nat × Int))
    (publicHolidays : List Int) (end_date : DateInput) (s : Int) :
    (addHoliday userId .missing end_date publicHolidays db = (.invalidDate, db))
    ∧ ((dayOfWeek s = 0 ∨ dayOfWeek s = 6) →
        addHoliday userId (.valid s) end_date publicHolidays db
          = (.weekendNotAllowed, db))
    ∧ (¬(dayOfWeek s = 0 ∨ dayOfWeek s = 6) → s ∈ publicHolidays →
        addHoliday userId (.valid s) end_date publicHolidays db
          = (.publicHolidayNotAllowed, db))
    ∧ (∀ e : Int, ¬(dayOfWeek s = 0 ∨ dayOfWeek s = 6) → s ∉ publicHolidays →
        generateDateRange s e publicHolidays = [] →
        addHoliday userId (.valid s) (.valid e) publicHolidays db
          = (.noValidDays, db))
    ∧ (∀ e : Int, ¬(dayOfWeek s = 0 ∨ dayOfWeek s = 6) → s ∉ publicHolidays →
        generateDateRange s e publicHolidays ≠ [] →
        addHoliday userId (.valid s) (.valid e) publicHolidays db
          = (.success (generateDateRange s e publicHolidays),
             insertHolidays db userId (generateDateRange s e publicHolidays)))
    ∧ (dayOfWeek s = 6 →
        (addHoliday userId (.valid s) end_date publicHolidays db).1
          = .weekendNotAllowed) := by
  refine ⟨rfl, ?_, ?_, ?_, ?_, ?_⟩
  · intro h
    unfold addHoliday
    dsimp only
    rw [if_pos h]
  · intro h1 h2
    unfold addHoliday
    dsimp only
    rw [if_neg h1, if_pos h2]
  · intro e h1 h2 h3
    unfold addHoliday
    dsimp only
    rw [if_neg h1, if_neg h2, h3]
    simp
  · intro e h1 h2 h3
    unfold addHoliday
    dsimp only
    rw [if_neg h1, if_neg h2, if_neg (by simp [h3])]
  · intro h
    unfold addHoliday
    dsimp only
    rw [if_pos (Or.inr h)]

theorem monthStats_requiredMonthlyHours (y m : Nat) (w : ℚ) (hc : Nat)
    (phs : List Int) :
    (monthStats y m w hc phs).requiredMonthlyHours
      = ((getWeekdaysInMonth y m : ℚ) - (phs.length : ℚ)) * 8 := rfl

theorem monthStats_totalHolidayHours (y m : Nat) (w : ℚ) (hc : Nat)
    (phs : List Int) :
    (monthStats y m w hc phs).totalHolidayHours = (hc : ℚ) * 8 := rfl

theorem monthStats_publicHolidayHours (y m : Nat) (w : ℚ) (hc : Nat)
    (phs : List Int) :
    (monthStats y m w hc phs).publicHolidayHours
      = (((phs.filter
            (fun d => !(dayOfWeek d == 0 || dayOfWeek d == 6))).length : ℚ)) * 8 :=
  rfl

theorem monthStats_totalCombinedHours (y m : Nat) (w : ℚ) (hc : Nat)
    (phs : List Int) :
    (monthStats y m w hc phs).totalCombinedHours
      = round2 (w + (hc : ℚ) * 8) := rfl

theorem monthStats_remainingHours (y m : Nat) (w : ℚ) (hc : Nat)
    (phs : List Int) :
    (monthStats y m w hc phs).remainingHours
      = round2 (max 0 (((getWeekdaysInMonth y m : ℚ) - (phs.length : ℚ)) * 8
          - (w + (hc : ℚ) * 8))) := rfl

theorem getWeekdaysInMonth_feb2024 : getWeekdaysInMonth 2024 2 = 21 := by
  decide

/-- C3: requiredMonthlyHours subtracts every supplied public holiday
(weekend-falling ones included) from the weekday count before multiplying
by 8; totalHolidayHours is 8 per holiday day; publicHolidayHours counts
only the weekday-falling holidays and is left out of totalCombinedHours,
which is workedHours plus totalHolidayHours; for February 2024 with no
public holidays, workedHours 100 and 2 holiday days, the stats read
168 / 16 / 116 / 52. -/
theorem c3_monthStats_formulas (year month : Nat) (w : ℚ) (hc : Nat)
    (phs : List Int) :
    ((monthStats year month w hc phs).requiredMonthlyHours
        = ((getWeekdaysInMonth year month : ℚ) - (phs.length : ℚ)) * 8)
    ∧ ((monthStats year month w hc phs).totalHolidayHours = (hc : ℚ) * 8)
    ∧ ((monthStats year month w hc phs).publicHolidayHours
        = (((phs.filter
              (fun d => !(dayOfWeek d == 0 || dayOfWeek d == 6))).length : ℚ)) * 8)
    ∧ (Centi w →
        (monthStats year month w hc phs).totalCombinedHours = w + (hc : ℚ) * 8)
    ∧ (monthStats 2024 2 100 2 []).requiredMonthlyHours = 168
    ∧ (monthStats 2024 2 100 2 []).totalHolidayHours = 16
    ∧ (monthStats 2024 2 100 2 []).totalCombinedHours = 116
    ∧ (monthStats 2024 2 100 2 []).remainingHours = 52 := by
  refine ⟨rfl, rfl, rfl, ?_, ?_, ?_, ?_, ?_⟩
  · intro hw
    rw [monthStats_totalCombinedHours]
    exact round2_eq_self (hw.add (Centi_nat_mul_eight hc))
  · rw [monthStats_requiredMonthlyHours, getWeekdaysInMonth_feb2024]
    norm_num
  · rw [monthStats_totalHolidayHours]
    norm_num
  · rw [monthStats_totalCombinedHours]
    have h116 : (100 : ℚ) + ((2 : ℕ) : ℚ) * 8 = 116 := by norm_num
    rw [h116]
    norm_num [round2, jsRound]
  · rw [monthStats_remainingHours, getWeekdaysInMonth_feb2024]
    have h52 : max (0 : ℚ)
        ((((21 : ℕ) : ℚ) - ((([] : List Int).length : ℕ) : ℚ)) * 8
          - (100 + ((2 : ℕ) : ℚ) * 8)) = 52 := by
      rw [max_eq_right (by norm_num)]
      norm_num
    rw [h52]
    norm_num [round2, jsRound]

/-- C4: remainingHours is max(0, requiredMonthlyHours - totalCombinedHours)
and never negative; at the 0.01 granularity the JavaScript numbers carry,
raising workedHours by a positive delta lowers remainingHours by exactly
that delta until it hits 0, where it stays. -/
theorem c4_remainingHours_monotone (year month : Nat) (w dlt : ℚ) (hc : Nat)
    (phs : List Int) :
    (0 ≤ (monthStats year month w hc phs).remainingHours)
    ∧ (Centi w →
        (monthStats year month w hc phs).remainingHours
          = max 0 ((monthStats year month w hc phs).requiredMonthlyHours
              - (monthStats year month w hc phs).totalCombinedHours))
    ∧ (Centi w → Centi dlt → 0 < dlt →
        (monthStats year month (w + dlt) hc phs).remainingHours
          = max 0 ((monthStats year month w hc phs).remainingHours - dlt)) := by
  have hR : Centi (((getWeekdaysInMonth year month : ℚ) - (phs.length : ℚ)) * 8) :=
    Centi_sub_mul_eight _ _
  have hH : Centi ((hc : ℚ) * 8) := Centi_nat_mul_eight hc
  refine ⟨?_, ?_, ?_⟩
  · rw [monthStats_remainingHours]
    exact round2_nonneg (le_max_left 0 _)
  · intro hw
    rw [monthStats_remainingHours, monthStats_requiredMonthlyHours,
      monthStats_totalCombinedHours]
    rw [round2_eq_self (hw.add hH)]
    exact round2_eq_self (Centi_zero.max (hR.sub (hw.add hH)))
  · intro hw hd hdpos
    rw [monthStats_remainingHours, monthStats_remainingHours]
    rw [round2_eq_self (Centi_zero.max (hR.sub ((hw.add hd).add hH)))]
    rw [round2_eq_self (Centi_zero.max (hR.sub (hw.add hH)))]
    have harg :
        ((getWeekdaysInMonth year month : ℚ) - (phs.length : ℚ)) * 8
            - (w + dlt + (hc : ℚ) * 8)
          = (((getWeekdaysInMonth year month : ℚ) - (phs.length : ℚ)) * 8
              - (w + (hc : ℚ) * 8)) - dlt := by
      ring
    rw [harg]
    exact max_zero_sub_max_zero _ dlt (le_of_lt hdpos)

/-- C4 witness: with February 2024, workedHours 100, 2 holiday days and no
public holidays, adding 60 worked hours drives remainingHours from 52 to
max(0, 52 - 60) = 0. -/
theorem c4_witness_concrete :
    (monthStats 2024 2 (100 + 60) 2 []).remainingHours
      = max 0 ((monthStats 2024 2 100 2 []).remainingHours - 60) :=
  (c4_remainingHours_monotone 2024 2 100 60 2 []).2.2
    ⟨10000, by norm_num⟩ ⟨6000, by norm_num⟩ (by norm_num)

/-- C2 witness: the claim's scenario, interval 2024-05-04 (a Saturday) to
2024-05-06, is rejected as weekendNotAllowed before any day generation. -/
theorem c2_witness_saturday_start :
    addHoliday 1 (DateInput.valid (daysFromCivil 2024 5 4))
        (DateInput.valid (daysFromCivil 2024 5 6)) [] []
      = (.weekendNotAllowed, []) := by
  exact (c2_addHoliday_precedence 1 [] []
    (DateInput.valid (daysFromCivil 2024 5 6)) (daysFromCivil 2024 5 4)).2.1
    (by decide)

/-- C5 counterexample: 2024-05-01 is a Wednesday on which a public holiday
with an empty display name is supplied, and the one user declared remote
that day; the route still counts it as a remote date (the exclusion tests
the truthiness of the holiday's name, and an empty name is falsy), so
remoteDates is not disjoint from the supplied public-holiday dates as the
claim states. -/
theorem c5_counterexample_unnamed_public_holiday :
    (remoteDates
        { year := 2024, month := 5
          allUsers := [{ id := 1, name := "A", email := "a@x.pl", group_id := none }]
          allGroups := []
          publicHolidaysRaw := [{ holiday_date := daysFromCivil 2024 5 1, name := "" }]
          allHolidays := []
          allWorkLocations :=
            [{ user_id := 1, work_date := daysFromCivil 2024 5 1, is_onsite := false }] }
        1
      = [daysFromCivil 2024 5 1])
    ∧ daysFromCivil 2024 5 1
        ∈ [({ holiday_date := daysFromCivil 2024 5 1, name := "" } :
            PublicHolidayRec)].map (fun p => p.holiday_date) := by
  constructor
  · decide
  · decide

/-- C5 (amended): remoteDates is exactly the subset of the month's days on
which the user explicitly declared remote (is_onsite === false, not merely
undeclared), that are not weekends, that carry no public-holiday map entry
with a truthy (non-empty) name, and that are not among the user's own
holidays; a user appears in the output iff they have a holiday date or a
qualifying remote date; and the two summary counters count the included
employees with holidayCount > 0 and remoteDaysCount > 0 respectively —
under distinct user ids and users-to-groups referential integrity. -/
theorem c5_byPerson_remote_and_inclusion (inp : ByPersonInput)
    (hids : (inp.allUsers.map (fun u => u.id)).Nodup)
    (href : ∀ u ∈ inp.allUsers, includedUser inp u.id = true →
      effectiveGroupId u ∈ groupMapKeys inp.allGroups) :
    (∀ uid d, d ∈ remoteDates inp uid ↔
        d ∈ daysInMonth inp.year inp.month
        ∧ lookupLocation (userWorkLocations inp uid) d = some false
        ∧ dayOfWeek d ≠ 0 ∧ dayOfWeek d ≠ 6
        ∧ (publicHolidaysMap inp.publicHolidaysRaw d).getD "" = ""
        ∧ d ∉ holidayDates inp uid)
    ∧ (∀ u ∈ inp.allUsers,
        (∃ g ∈ groupedEmployees inp, ∃ e ∈ g.employees, e.id = u.id)
          ↔ (holidayDates inp u.id ≠ [] ∨ remoteDates inp u.id ≠ []))
    ∧ totalEmployeesWithHolidays inp
        = inp.allUsers.countP (fun u =>
            includedUser inp u.id && decide (0 < (holidayDates inp u.id).length))
    ∧ totalEmployeesWithRemoteWork inp
        = inp.allUsers.countP (fun u =>
            includedUser inp u.id && decide (0 < (remoteDates inp u.id).length)) := by
  refine ⟨fun uid d => mem_remoteDates inp uid d, ?_, ?_, ?_⟩
  · intro u hu
    rw [appears_in_groupedEmployees inp hids href u hu]
    unfold includedUser
    simp [List.length_pos]
  · rw [show totalEmployeesWithHolidays inp
        = (((groupedEmployees inp).map (fun g => g.employees)).flatten).countP
            (fun e => decide (0 < e.holidayCount)) from rfl]
    rw [countP_groupedEmployees inp _ href]
    apply List.countP_congr
    intro u _
    show (decide (0 < (holidayDates inp u.id).length) && includedUser inp u.id)
        = true ↔ _
    rw [Bool.and_comm]
  · rw [show totalEmployeesWithRemoteWork inp
        = (((groupedEmployees inp).map (fun g => g.employees)).flatten).countP
            (fun e => decide (0 < e.remoteDaysCount)) from rfl]
    rw [countP_groupedEmployees inp _ href]
    apply List.countP_congr
    intro u _
    show (decide (0 < (remoteDates inp u.id).length) && includedUser inp u.id)
        = true ↔ _
    rw [Bool.and_comm]

/-- C5 witness: in May 2024 user A has three holiday dates (May 6-8) and
two qualifying remote dates (May 9-10), user B has neither; both summary
counters equal 1. -/
theorem c5_witness_scenario :
    totalEmployeesWithHolidays
        { year := 2024, month := 5
          allUsers := [{ id := 1, name := "A", email := "a@x.pl", group_id := none },
                       { id := 2, name := "B", email := "b@x.pl", group_id := none }]
          allGroups := []
          publicHolidaysRaw := []
          allHolidays := [{ user_id := 1, holiday_date := daysFromCivil 2024 5 6 },
                          { user_id := 1, holiday_date := daysFromCivil 2024 5 7 },
                          { user_id := 1, holiday_date := daysFromCivil 2024 5 8 }]
          allWorkLocations :=
            [{ user_id := 1, work_date := daysFromCivil 2024 5 9, is_onsite := false },
             { user_id := 1, work_date := daysFromCivil 2024 5 10, is_onsite := false }] }
      = 1
    ∧ totalEmployeesWithRemoteWork
        { year := 2024, month := 5
          allUsers := [{ id := 1, name := "A", email := "a@x.pl", group_id := none },
                       { id := 2, name := "B", email := "b@x.pl", group_id := none }]
          allGroups := []
          publicHolidaysRaw := []
          allHolidays := [{ user_id := 1, holiday_date := daysFromCivil 2024 5 6 },
                          { user_id := 1, holiday_date := daysFromCivil 2024 5 7 },
                          { user_id := 1, holiday_date := daysFromCivil 2024 5 8 }]
          allWorkLocations :=
            [{ user_id := 1, work_date := daysFromCivil 2024 5 9, is_onsite := false },
             { user_id := 1, work_date := daysFromCivil 2024 5 10, is_onsite := false }] }
      = 1 := by
  have h := c5_byPerson_remote_and_inclusion
    { year := 2024, month := 5
      allUsers := [{ id := 1, name := "A", email := "a@x.pl", group_id := none },
                   { id := 2, name := "B", email := "b@x.pl", group_id := none }]
      allGroups := []
      publicHolidaysRaw := []
      allHolidays := [{ user_id := 1, holiday_date := daysFromCivil 2024 5 6 },
                      { user_id := 1, holiday_date := daysFromCivil 2024 5 7 },
                      { user_id := 1, holiday_date := daysFromCivil 2024 5 8 }]
      allWorkLocations :=
        [{ user_id := 1, work_date := daysFromCivil 2024 5 9, is_onsite := false },
         { user_id := 1, work_date := daysFromCivil 2024 5 10, is_onsite := false }] }
    (by decide) (by decide)
  refine ⟨?_, ?_⟩
  · rw [h.2.2.1]
    decide
  · rw [h.2.2.2]
    decide

/-- C6: the multi-date write is record-level idempotent: a row is inserted
only when no (user, date) row exists yet, so the table after the write
holds exactly the old rows plus the new (user, date) pairs, an existing
duplicate-free table stays duplicate-free, and re-running the same write
changes nothing.  The whole fold is one Lean function application, matching
the single transaction the route wraps the checks and inserts in. -/
theorem c6_insertHolidays_idempotent (db : List (Nat × Int)) (u : Nat)
    (ds : List Int) :
    (insertHolidays (insertHolidays db u ds) u ds = insertHolidays db u ds)
    ∧ (∀ p : Nat × Int,
        p ∈ insertHolidays db u ds ↔ p ∈ db ∨ (p.1 = u ∧ p.2 ∈ ds))
    ∧ (db.Nodup → (insertHolidays db u ds).Nodup) := by
  refine ⟨?_, fun p => mem_insertHolidays db u ds p, nodup_insertHolidays db u ds⟩
  apply insertHolidays_of_all_mem
  intro d hd
  exact (mem_insertHolidays db u ds (u, d)).2 (Or.inr ⟨rfl, hd⟩)

/-- Helper: for a parseable start date the route's outcome is one of the
four post-parse outcomes, never invalidDate. -/
theorem addHoliday_valid_fst_cases (userId : Nat) (db : List (Nat × Int))
    (phs : List Int) (end_date : DateInput) (s : Int) :
    (addHoliday userId (.valid s) end_date phs db).1 = .weekendNotAllowed
    ∨ (addHoliday userId (.valid s) end_date phs db).1 = .publicHolidayNotAllowed
    ∨ (addHoliday userId (.valid s) end_date phs db).1 = .noValidDays
    ∨ ∃ ds, (addHoliday userId (.valid s) end_date phs db).1 = .success ds := by
  unfold addHoliday
  dsimp only
  by_cases h1 : dayOfWeek s = 0 ∨ dayOfWeek s = 6
  · rw [if_pos h1]
    exact Or.inl rfl
  · rw [if_neg h1]
    by_cases h2 : s ∈ phs
    · rw [if_pos h2]
      exact Or.inr (Or.inl rfl)
    · rw [if_neg h2]
      cases end_date with
      | missing =>
        dsimp only
        split
        · exact Or.inr (Or.inr (Or.inl rfl))
        · exact Or.inr (Or.inr (Or.inr ⟨_, rfl⟩))
      | unparseable =>
        dsimp only
        exact Or.inr (Or.inr (Or.inl rfl))
      | valid e =>
        dsimp only
        split
        · exact Or.inr (Or.inr (Or.inl rfl))
        · exact Or.inr (Or.inr (Or.inr ⟨_, rfl⟩))

/-- C7 counterexample: a present but unparseable start date (with a valid
end date, 2024-05-06) is not answered with invalidDate — the missing-value
check is the only source of that outcome; the unparseable string passes the
NaN weekend check and fails later, here through the formatDate error path.
No row is written either way. -/
theorem c7_counterexample_unparseable_start :
    (addHoliday 1 DateInput.unparseable
        (DateInput.valid (daysFromCivil 2024 5 6)) [] []).1
      ≠ AddOutcome.invalidDate
    ∧ (addHoliday 1 DateInput.unparseable
        (DateInput.valid (daysFromCivil 2024 5 6)) [] []).2 = [] := by
  constructor
  · decide
  · rfl

/-- C7 (amended): the route answers invalidDate exactly when the start
date is missing; an unparseable start date is also rejected (through the
generic failure path, since formatDate raises on it per the spec) — and in
both cases the holidays table is unchanged. -/
theorem c7_invalidDate_iff_missing (userId : Nat) (db : List (Nat × Int))
    (phs : List Int) (start_date end_date : DateInput) :
    ((addHoliday userId start_date end_date phs db).1 = .invalidDate
      ↔ start_date = .missing)
    ∧ (start_date = .missing ∨ start_date = .unparseable →
        addHoliday userId start_date end_date phs db
          = ((if start_date = .missing then .invalidDate else .failed), db)) := by
  constructor
  · cases start_date with
    | missing => simp [addHoliday]
    | unparseable => simp [addHoliday]
    | valid s =>
      simp only [show (DateInput.valid s = DateInput.missing) = False from by
        simp, iff_false]
      intro h
      rcases addHoliday_valid_fst_cases userId db phs end_date s with
        h1 | h1 | h1 | ⟨ds, h1⟩ <;> rw [h1] at h <;> exact absurd h (by simp)
  · rintro (rfl | rfl)
    · simp [addHoliday]
    · simp [addHoliday]

/-- C8: the grouped output keeps exactly the groups with at least one
qualifying employee; it is ordered so that a non-sentinel group precedes
another when the other is the sentinel or its name is not smaller; the
sentinel bucket (id 0) therefore comes last, carries the fixed name and
holds exactly the included users without a group (group_id absent or 0). -/
theorem c8_groupedEmployees_ordering (inp : ByPersonInput) :
    (∀ g ∈ groupedEmployees inp, g.employees ≠ [])
    ∧ (∀ g : GroupAgg,
        g ∈ groupedEmployees inp ↔ g ∈ groupMapValues inp ∧ g.employees ≠ [])
    ∧ (groupedEmployees inp).Pairwise
        (fun a b => a.id ≠ 0 ∧ (b.id = 0 ∨ a.name ≤ b.name))
    ∧ (∀ g ∈ groupedEmployees inp, g.id = 0 →
        g.name = "Bez grupy"
        ∧ g.employees = (inp.allUsers.filter (fun u =>
            includedUser inp u.id && (u.group_id.getD 0 == 0))).map
              (employeeData inp)) := by
  refine ⟨?_, mem_groupedEmployees inp, ?_, ?_⟩
  · intro g hg
    exact ((mem_groupedEmployees inp g).1 hg).2
  · refine (pairwise_groupedEmployees inp).imp ?_
    intro a b hab
    unfold groupLe at hab
    by_cases ha : a.id = 0
    · rw [if_pos ha] at hab
      exact absurd hab (by simp)
    · refine ⟨ha, ?_⟩
      by_cases hb : b.id = 0
      · exact Or.inl hb
      · rw [if_neg ha, if_neg hb] at hab
        exact Or.inr (by simpa using hab)
  · intro g hg h0
    obtain ⟨hgv, -⟩ := (mem_groupedEmployees inp g).1 hg
    obtain ⟨k, -, rfl⟩ := List.mem_map.1 hgv
    have hk : k = 0 := h0
    subst hk
    exact ⟨rfl, rfl⟩

/-- C9 counterexample: the caller-supplied month 0 is out of range and its
nearest value in [1, 12] is 1, but with October as the current month the
route answers 10 — parseInt's result 0 is falsy, so the code substitutes
the current month instead of clamping. -/
theorem c9_counterexample_month_zero :
    clampMonth (some 0) 10 = 10
    ∧ (1 : Int) ≤ 12
    ∧ |(0 : Int) - 1| < |(0 : Int) - clampMonth (some 0) 10| := by
  refine ⟨rfl, by decide, by decide⟩

/-- C9 (amended): the grouping views never fail on out-of-range input: the
result always lies in [1, 12] and [2020, 2030] (when the current month and
year do); a parsed nonzero value is clamped to the nearest in-range value;
a missing, unparseable or zero value falls back to the current month or
year instead. -/
theorem c9_month_year_clamping (qm qy : Option Int) (cm cy : Int) :
    ((1 ≤ cm → cm ≤ 12 → 1 ≤ clampMonth qm cm ∧ clampMonth qm cm ≤ 12)
      ∧ (2020 ≤ cy → cy ≤ 2030 →
          2020 ≤ clampYear qy cy ∧ clampYear qy cy ≤ 2030))
    ∧ (∀ v : Int, v ≠ 0 →
        ∀ m : Int, 1 ≤ m → m ≤ 12 →
          |v - clampMonth (some v) cm| ≤ |v - m|)
    ∧ (∀ v : Int, v ≠ 0 →
        ∀ y : Int, 2020 ≤ y → y ≤ 2030 →
          |v - clampYear (some v) cy| ≤ |v - y|)
    ∧ (clampMonth none cm = max 1 (min 12 cm)
        ∧ clampMonth (some 0) cm = max 1 (min 12 cm)
        ∧ clampYear none cy = max 2020 (min 2030 cy)
        ∧ clampYear (some 0) cy = max 2020 (min 2030 cy)) := by
  refine ⟨⟨?_, ?_⟩, ?_, ?_, rfl, rfl, rfl, rfl⟩
  · intro h1 h2
    unfold clampMonth
    constructor <;> omega
  · intro h1 h2
    unfold clampYear
    constructor <;> omega
  · intro v hv m hm1 hm2
    unfold clampMonth parsedOrDefault
    dsimp only
    rw [if_neg hv]
    by_cases hlo : v < 1
    · rw [show max 1 (min 12 v) = 1 from by omega]
      rw [abs_of_nonpos (by omega), abs_of_nonpos (by omega)]
      omega
    · by_cases hhi : 12 < v
      · rw [show max 1 (min 12 v) = 12 from by omega]
        rw [abs_of_nonneg (by omega), abs_of_nonneg (by omega)]
        omega
      · rw [show max 1 (min 12 v) = v from by omega]
        simp
  · intro v hv y hy1 hy2
    unfold clampYear parsedOrDefault
    dsimp only
    rw [if_neg hv]
    by_cases hlo : v < 2020
    · rw [show max 2020 (min 2030 v) = 2020 from by omega]
      rw [abs_of_nonpos (by omega), abs_of_nonpos (by omega)]
      omega
    · by_cases hhi : 2030 < v
      · rw [show max 2020 (min 2030 v) = 2030 from by omega]
        rw [abs_of_nonneg (by omega), abs_of_nonneg (by omega)]
        omega
      · rw [show max 2020 (min 2030 v) = v from by omega]
        simp

/-- C10 counterexample: the reversed interval from Saturday 2024-05-04 back
to Friday 2024-05-03 is rejected, but with weekendNotAllowed, not with
noValidDays — the start-date checks run before the day generation. -/
theorem c10_counterexample_weekend_start :
    daysFromCivil 2024 5 3 < daysFromCivil 2024 5 4
    ∧ (addHoliday 1 (DateInput.valid (daysFromCivil 2024 5 4))
        (DateInput.valid (daysFromCivil 2024 5 3)) [] []).1
      ≠ AddOutcome.noValidDays := by
  constructor
  · decide
  · decide

/-- C10 (amended): a reversed interval (parsed start after parsed end)
makes the generator return the empty list; the request is then rejected
with noValidDays when the start date itself passes the weekend and
public-holiday checks (and with those earlier outcomes otherwise), and in
every case no holiday row is written — the transactional write is never
reached. -/
theorem c10_reversed_interval (userId : Nat) (db : List (Nat × Int))
    (phs : List Int) (s e : Int) :
    (e < s → generateDateRange s e phs = [])
    ∧ (e < s → ¬(dayOfWeek s = 0 ∨ dayOfWeek s = 6) → s ∉ phs →
        addHoliday userId (.valid s) (.valid e) phs db = (.noValidDays, db))
    ∧ (e < s → (addHoliday userId (.valid s) (.valid e) phs db).2 = db) := by
  have hgen : e < s → generateDateRange s e phs = [] := fun h =>
    generateDateRange_gt phs (by omega)
  refine ⟨hgen, ?_, ?_⟩
  · intro h h1 h2
    unfold addHoliday
    dsimp only
    rw [if_neg h1, if_neg h2, hgen h]
    simp
  · intro h
    unfold addHoliday
    dsimp only
    by_cases h1 : dayOfWeek s = 0 ∨ dayOfWeek s = 6
    · rw [if_pos h1]
    · rw [if_neg h1]
      by_cases h2 : s ∈ phs
      · rw [if_pos h2]
      · rw [if_neg h2, hgen h]
        simp

end Wtt
